import Mathlib

/-!
Verification of the storage-engine core of the TDB repository: the frame
manager (src/server/storage_engine/buffer/frame_manager.cpp) and the log
manager with its recovery driver
(src/server/storage_engine/recover/log_manager.cpp).

The C++ code is shallowly embedded: pointers to pool frames become natural
number indices into a pool list, the frame cache becomes an association list
kept in eviction-candidate order (front = first candidate), and assertions
(ASSERT) become Option results where a firing assertion is modelled as none.
Classes whose implementation is not part of the repository sources
(FrameAllocator, FrameLruCache, LogFile, the LogEntry builders, the
transaction manager) are modelled from the specification; each such
definition says so in its doc comment.
-/

/-- Return codes of the storage engine (the subset used by the embedded
functions, from the closed taxonomy of the design). -/
inductive RC where
  | SUCCESS
  | NOMEM
  | INVALID_ARGUMENT
  | INTERNAL
  | IOERR
  | RECORD_EOF
deriving DecidableEq, Repr

/-- FrameId: pair of file descriptor and page number identifying a page
within an open file. -/
structure FrameId where
  file_desc : Int
  page_num : Int
deriving DecidableEq, Repr

/-- Frame: a single page buffer. Only the fields the verified operations
touch are modelled; the page data bytes and the dirty bit are never read by
frame_manager.cpp itself and are omitted. -/
structure Frame where
  page_num : Int
  pin_count : Nat
deriving DecidableEq, Repr

/-- Frame::pin — increments the pin count. -/
def Frame.pin (f : Frame) : Frame :=
  { f with pin_count := f.pin_count + 1 }

/-- Frame::unpin — decrements the pin count. -/
def Frame.unpin (f : Frame) : Frame :=
  { f with pin_count := f.pin_count - 1 }

/-- Frame::can_evict. Modelled from the spec: a frame can be evicted iff its
pin count is zero. -/
def Frame.can_evict (f : Frame) : Bool :=
  f.pin_count = 0

namespace FrameManager

/-- State of a FrameManager. Frames live in a fixed pool list; a frame
pointer is modelled as an index into that pool. The allocator free list
holds the indices of unallocated frames (FrameAllocator is modelled from
the spec: a bounded pool handing out unused frames). The cache is an
association list from FrameId to frame index, kept in eviction-candidate
order with the front being the first candidate (FrameLruCache is modelled
from the spec: least-recently-used first, a got entry moves to the back). -/
structure State where
  pool : List Frame
  free : List Nat
  cache : List (FrameId × Nat)
deriving DecidableEq, Repr

/-- Lookup in the frame cache (FrameLruCache::get, without the LRU
reordering, which get_internal applies separately). -/
def lookupCache : List (FrameId × Nat) → FrameId → Option Nat
  | [], _ => none
  | p :: rest, fid => if p.1 = fid then some p.2 else lookupCache rest fid

/-- FrameLruCache::remove — drop the entry with the given key. -/
def eraseKey : List (FrameId × Nat) → FrameId → List (FrameId × Nat)
  | [], _ => []
  | p :: rest, fid => if p.1 = fid then rest else p :: eraseKey rest fid

/-- LRU reordering on a successful cache lookup. Modelled from the spec:
the most recently got entry moves to the back of the eviction order. -/
def moveToBack (c : List (FrameId × Nat)) (fid : FrameId) : List (FrameId × Nat) :=
  match lookupCache c fid with
  | none => c
  | some r => eraseKey c fid ++ [(fid, r)]

/-- Pin count of the frame at pool index r (0 for an out-of-pool index;
well-formed states only hold in-pool indices). -/
def pinOfPool : List Frame → Nat → Nat
  | [], _ => 0
  | f :: _, 0 => f.pin_count
  | _ :: rest, r + 1 => pinOfPool rest r

/-- Pin count of the frame at index r in state s. -/
def State.pinOf (s : State) (r : Nat) : Nat :=
  pinOfPool s.pool r

/-- Apply Frame::pin to the frame at pool index r. -/
def pinAt : List Frame → Nat → List Frame
  | [], _ => []
  | f :: rest, 0 => f.pin :: rest
  | f :: rest, r + 1 => f :: pinAt rest r

/-- Apply Frame::unpin to the frame at pool index r. -/
def unpinAt : List Frame → Nat → List Frame
  | [], _ => []
  | f :: rest, 0 => f.unpin :: rest
  | f :: rest, r + 1 => f :: unpinAt rest r

/-- Frame::set_page_num on the frame at pool index r. -/
def setPageAt : List Frame → Nat → Int → List Frame
  | [], _, _ => []
  | f :: rest, 0, pg => { f with page_num := pg } :: rest
  | f :: rest, r + 1, pg => f :: setPageAt rest r pg

/-- FrameManager::get_internal — look the FrameId up in the cache; if
resident, pin the frame and return it, else return null. The lookup also
refreshes the LRU position of the entry. -/
def get_internal (s : State) (fid : FrameId) : Option Nat × State :=
  match lookupCache s.cache fid with
  | none => (none, s)
  | some r =>
      (some r, { s with pool := pinAt s.pool r, cache := moveToBack s.cache fid })

/-- FrameManager::get — public lookup, never allocates. -/
def get (s : State) (fid : FrameId) : Option Nat × State :=
  get_internal s fid

/-- FrameManager::alloc. If the FrameId is resident, behaves as get.
Otherwise asks the allocator for a frame (head of the free list); on
success asserts the frame is unpinned, sets its page number, pins it and
inserts it at the back of the cache. Returns null when the allocator is
exhausted. The outer Option models the ASSERT on the freshly allocated
frame: none means the assertion fired. -/
def alloc (s : State) (fid : FrameId) : Option (Option Nat × State) :=
  match get_internal s fid with
  | (some r, s1) => some (some r, s1)
  | (none, _) =>
    match s.free with
    | [] => some (none, s)
    | r :: rest =>
      if s.pinOf r = 0 then
        some (some r,
          { s with
            pool := pinAt (setPageAt s.pool r fid.page_num) r,
            free := rest,
            cache := s.cache ++ [(fid, r)] })
      else none

/-- FrameManager::free_internal. The ASSERT demands that the FrameId is
resident, the passed frame is the resident one, and its pin count is one;
a violation is modelled as none. On success the frame is unpinned, removed
from the cache and handed back to the allocator. -/
def free_internal (s : State) (fid : FrameId) (r : Nat) : Option (RC × State) :=
  if lookupCache s.cache fid = some r ∧ s.pinOf r = 1 then
    some (RC.SUCCESS,
      { s with
        pool := unpinAt s.pool r,
        free := r :: s.free,
        cache := eraseKey s.cache fid })
  else none

/-- FrameManager::free — public entry, delegates to free_internal. -/
def free (s : State) (fid : FrameId) (r : Nat) : Option (RC × State) :=
  free_internal s fid r

/-- One visit of the fetcher lambda of FrameManager::evict_frames on the
entry (fid, r): when the frame can be evicted and the eviction action
returns SUCCESS, the entry is removed from the cache and the frame is
returned to the allocator and the evicted counter is incremented;
otherwise nothing changes. -/
def evictVisit (act : Nat → RC) (s : State) (ev : Nat) (fid : FrameId) (r : Nat) :
    State × Nat :=
  if s.pinOf r = 0 then
    if act r = RC.SUCCESS then
      ({ s with cache := eraseKey s.cache fid, free := r :: s.free }, ev + 1)
    else (s, ev)
  else (s, ev)

/-- The eviction loop of FrameManager::evict_frames, folded over a snapshot
of the cache in eviction-candidate order. After each visit the traversal
continues iff evicted < count, exactly the return value of the C++
fetcher lambda. -/
def evictAux (act : Nat → RC) (count : Nat) :
    List (FrameId × Nat) → State → Nat → State × Nat
  | [], s, ev => (s, ev)
  | (fid, r) :: rest, s, ev =>
    let step := evictVisit act s ev fid r
    if step.2 < count then evictAux act count rest step.1 step.2 else step

/-- FrameManager::evict_frames — returns the final state and the number of
evicted frames. -/
def evict_frames (s : State) (count : Nat) (act : Nat → RC) : State × Nat :=
  evictAux act count s.cache s 0

/-- Keys of a cache association list. -/
def cacheKeys (c : List (FrameId × Nat)) : List FrameId :=
  c.map Prod.fst

/-- Well-formedness of a FrameManager state: cache and free-list indices
point into the pool, and no FrameId is resident twice. All states
reachable from init satisfy it. -/
def State.Wf (s : State) : Prop :=
  (∀ p ∈ s.cache, p.2 < s.pool.length) ∧
  (∀ r ∈ s.free, r < s.pool.length) ∧
  (cacheKeys s.cache).Nodup

instance (s : State) : Decidable s.Wf := by
  unfold State.Wf
  infer_instance

/-- FrameManager::init with pool size P: the allocator owns P unpinned
frames, the cache is empty. -/
def init (P : Nat) : State :=
  { pool := List.replicate P { page_num := 0, pin_count := 0 },
    free := List.range P,
    cache := [] }

/-- One public FrameManager operation, for reasoning about call sequences. -/
inductive Op where
  | alloc (fid : FrameId)
  | get (fid : FrameId)
  | free (fid : FrameId) (r : Nat)
deriving DecidableEq, Repr

/-- Run one operation; none when an assertion fires. -/
def stepOp (s : State) : Op → Option State
  | .alloc fid => (alloc s fid).map Prod.snd
  | .get fid => some (get s fid).2
  | .free fid r => (free s fid r).map Prod.snd

/-- Run a sequence of operations from a state. -/
def run : State → List Op → Option State
  | s, [] => some s
  | s, op :: rest =>
    match stepOp s op with
    | none => none
    | some s1 => run s1 rest

/-- Number of resident frames that can be evicted (pin count zero). -/
def numEvictable (s : State) : Nat :=
  s.cache.countP (fun p => s.pinOf p.2 = 0)

end FrameManager

/-- Log entry types. MTR_BEGIN, MTR_COMMIT, MTR_ROLLBACK and ERROR appear
in the recovery switch of log_manager.cpp; the record-mutation types are
those named by the design (INSERT, DELETE, UPDATE). Every type other than
MTR_BEGIN, MTR_COMMIT and ERROR falls into the default branch of the
recovery dispatch. -/
inductive LogEntryType where
  | MTR_BEGIN
  | MTR_COMMIT
  | MTR_ROLLBACK
  | ERROR
  | INSERT
  | DELETE
  | UPDATE
deriving DecidableEq, Repr

/-- LogEntryHeader: fixed framing record of a log entry. -/
structure LogEntryHeader where
  log_type : LogEntryType
  trx_id : Int
  log_entry_len : Int
  lsn : Int
deriving DecidableEq, Repr

/-- Payload of a log entry, by type. Modelled from the spec: no payload for
begin and rollback, a commit transaction id for commit, and the record
mutation fields for the record types. -/
inductive LogPayload where
  | empty
  | commit (commit_xid : Int)
  | record (table_id : Int) (rid : Int × Int) (data_offset : Int)
      (data_len : Int) (data : List Nat)
deriving DecidableEq, Repr

/-- LogEntry: header plus payload. -/
structure LogEntry where
  header : LogEntryHeader
  payload : LogPayload
deriving DecidableEq, Repr

/-- LogEntry::log_type accessor. -/
def LogEntry.log_type (e : LogEntry) : LogEntryType :=
  e.header.log_type

/-- LogEntry::trx_id accessor. -/
def LogEntry.trx_id (e : LogEntry) : Int :=
  e.header.trx_id

/-- LogEntry::build_mtr_entry. Modelled from the spec: builds a payloadless
entry for begin and rollback. -/
def LogEntry.build_mtr_entry (t : LogEntryType) (trx_id : Int) : LogEntry :=
  { header := { log_type := t, trx_id := trx_id, log_entry_len := 0, lsn := 0 },
    payload := .empty }

/-- LogEntry::build_commit_entry. Modelled from the spec: payload is the
commit transaction id, four bytes. -/
def LogEntry.build_commit_entry (trx_id commit_xid : Int) : LogEntry :=
  { header := { log_type := .MTR_COMMIT, trx_id := trx_id, log_entry_len := 4, lsn := 0 },
    payload := .commit commit_xid }

/-- LogEntry::build_record_entry. Modelled from the spec: copies the record
mutation fields; returns null when the entry allocation fails, which the
Boolean allocOk oracle makes explicit. -/
def LogEntry.build_record_entry (allocOk : Bool) (t : LogEntryType)
    (trx_id table_id : Int) (rid : Int × Int) (data_len data_offset : Int)
    (data : List Nat) : Option LogEntry :=
  if allocOk then
    some { header := { log_type := t, trx_id := trx_id,
                       log_entry_len := 20 + data_len, lsn := 0 },
           payload := .record table_id rid data_offset data_len data }
  else none

/-- State of a LogBuffer: the entries appended so far, in order. -/
structure LogBuffer where
  entries : List LogEntry
deriving DecidableEq, Repr

/-- LogBuffer::append_log_entry. Modelled from the spec: serializes the
entry and appends it, preserving order. -/
def LogBuffer.append_log_entry (b : LogBuffer) (e : LogEntry) : RC × LogBuffer :=
  (RC.SUCCESS, { entries := b.entries ++ [e] })

/-- State of a LogManager: its log buffer (the log file is modelled
separately where recovery needs it). -/
structure LogManager where
  buffer : LogBuffer
deriving DecidableEq, Repr

/-- LogManager::append_log — null entry yields INVALID_ARGUMENT without
touching the buffer; otherwise the entry is appended to the log buffer. -/
def LogManager.append_log (m : LogManager) (e : Option LogEntry) : RC × LogManager :=
  match e with
  | none => (RC.INVALID_ARGUMENT, m)
  | some le =>
    let rb := m.buffer.append_log_entry le
    (rb.1, { m with buffer := rb.2 })

/-- LogManager::append_record_log — builds a record entry and forwards it to
append_log; a failed build (null entry) yields NOMEM. -/
def LogManager.append_record_log (allocOk : Bool) (m : LogManager)
    (t : LogEntryType) (trx_id table_id : Int) (rid : Int × Int)
    (data_len data_offset : Int) (data : List Nat) : RC × LogManager :=
  match LogEntry.build_record_entry allocOk t trx_id table_id rid data_len data_offset data with
  | none => (RC.NOMEM, m)
  | some e => m.append_log (some e)

/-- Shape of the tail of a log file after the clean entries. Modelled from
the spec of LogFile and the log format: a cleanly shut-down log ends on a
record boundary; a crash mid-write leaves either a truncated header or a
complete header whose payload is missing (the header's log_entry_len is
positive in that case). -/
inductive TornTail where
  | clean
  | tornHeader
  | tornPayload (h : LogEntryHeader)
deriving DecidableEq, Repr

/-- Content of a log file as seen by the iterator: the longest clean
sequence of entries followed by the tail shape. -/
structure LogFileContent where
  entries : List LogEntry
  torn : TornTail
deriving DecidableEq, Repr

/-- State of a LogEntryIterator: the entries not yet read, the tail shape,
and the log_entry_ member holding the last successfully parsed entry
(null before the first successful next). -/
structure IterState where
  remaining : List LogEntry
  torn : TornTail
  log_entry : Option LogEntry
deriving DecidableEq, Repr

/-- LogEntryIterator::next. Reading the next header succeeds while clean
entries remain, and the freshly built entry replaces the stored one. At
the end of the clean entries: a clean tail means the header read fails at
end-of-file (RECORD_EOF); a torn header also fails the header read but not
at a clean end-of-file (an I/O error is returned); a torn payload lets the
header read succeed and the payload read fail (an I/O error is returned).
On every failing path the stored log_entry_ is left unchanged, exactly as
in the source, where each early return precedes the code that replaces
log_entry_. -/
def IterState.next (it : IterState) : RC × IterState :=
  match it.remaining with
  | e :: rest => (RC.SUCCESS, { it with remaining := rest, log_entry := some e })
  | [] =>
    match it.torn with
    | .clean => (RC.RECORD_EOF, it)
    | .tornHeader => (RC.IOERR, it)
    | .tornPayload _ => (RC.IOERR, it)

/-- LogEntryIterator::valid — true iff a parsed entry is stored. -/
def IterState.valid (it : IterState) : Bool :=
  it.log_entry.isSome

/-- LogEntryIterator::init positioned at the start of a log file. -/
def IterState.start (f : LogFileContent) : IterState :=
  { remaining := f.entries, torn := f.torn, log_entry := none }

/-- One observable call recovery makes on the transaction manager.
Modelled from the spec of the TrxManager contract. -/
inductive TrxEvent where
  | create (trx_id : Int)
  | redo (trx_id : Int) (e : LogEntry)
  | rollback (trx_id : Int)
deriving DecidableEq, Repr

/-- Insert into a set kept as a duplicate-free list (std::unordered_set
insert; the list keeps insertion order to stay deterministic). -/
def insertNew (l : List Int) (x : Int) : List Int :=
  if x ∈ l then l else l ++ [x]

/-- State of the recovery loop: the iterator, the uncommitted_trx_ids set,
the set of transaction ids known to the transaction manager (create_trx
registers an id; find_trx finds exactly the registered ids — modelled from
the spec of the TrxManager contract), and the trace of transaction-manager
calls made so far. -/
structure RecoverState where
  iter : IterState
  uncommitted : List Int
  created : List Int
  events : List TrxEvent
deriving DecidableEq, Repr

/-- Dispatch of one log entry in the recovery switch. MTR_BEGIN creates the
transaction and records it uncommitted; MTR_COMMIT and the default branch
dereference find_trx(trx_id) with no null check — a null result (an id
never created) is modelled as none; ERROR entries are skipped. The return
code of redo is discarded, as in the source. -/
def recoverDispatch (e : LogEntry) (st : RecoverState) : Option RecoverState :=
  match e.log_type with
  | .MTR_BEGIN =>
    some { st with
      created := insertNew st.created e.trx_id,
      uncommitted := insertNew st.uncommitted e.trx_id,
      events := st.events ++ [.create e.trx_id] }
  | .MTR_COMMIT =>
    if e.trx_id ∈ st.created then
      some { st with
        uncommitted := st.uncommitted.erase e.trx_id,
        events := st.events ++ [.redo e.trx_id e] }
    else none
  | .ERROR => some st
  | _ =>
    if e.trx_id ∈ st.created then
      some { st with events := st.events ++ [.redo e.trx_id e] }
    else none

/-- The for loop of LogManager::recover, with fuel. The loop keeps running
while the iterator is valid; each round dispatches the stored entry and
then advances the iterator. The outer none means the loop did not exit
within the given fuel; some none means a null find_trx result was
dereferenced; some (some st) means the loop exited normally in state st. -/
def recoverLoop : Nat → RecoverState → Option (Option RecoverState)
  | 0, _ => none
  | fuel + 1, st =>
    match st.iter.log_entry with
    | none => some (some st)
    | some e =>
      match recoverDispatch e st with
      | none => some none
      | some st1 => recoverLoop fuel { st1 with iter := st1.iter.next.2 }

/-- The rollback pass after the scan: for every id still in
uncommitted_trx_ids, find_trx(id)->rollback() is called — again an
unchecked dereference, none when the id was never created. -/
def rollbackAll : List Int → List Int → List TrxEvent → Option (List TrxEvent)
  | [], _, evs => some evs
  | id :: rest, created, evs =>
    if id ∈ created then rollbackAll rest created (evs ++ [.rollback id])
    else none

/-- LogManager::recover over a log file, with fuel bounding the number of
loop rounds. The outer none means recover did not return within the fuel;
some none means a null pointer was dereferenced; some (some (rc, evs))
means recover returned rc after making the calls evs. -/
def recover (fuel : Nat) (f : LogFileContent) : Option (Option (RC × List TrxEvent)) :=
  let st0 : RecoverState :=
    { iter := (IterState.start f).next.2, uncommitted := [], created := [], events := [] }
  match recoverLoop fuel st0 with
  | none => none
  | some none => some none
  | some (some st) =>
    match rollbackAll st.uncommitted st.created st.events with
    | none => some none
    | some evs => some (some (RC.SUCCESS, evs))

/-- True iff a recover outcome avoided any null-pointer dereference. -/
def derefFree (o : Option (Option (RC × List TrxEvent))) : Bool :=
  match o with
  | some none => false
  | _ => true

/-- An entry is safe to dispatch against a given set of created ids: begin
and error entries always are, commit and default-branch entries only when
their transaction id was already created. -/
def safeEntry (created : List Int) (e : LogEntry) : Bool :=
  match e.log_type with
  | .MTR_BEGIN => true
  | .ERROR => true
  | _ => decide (e.trx_id ∈ created)

/-- Ids created by dispatching one entry: begin registers its id. -/
def applyBegin (created : List Int) (e : LogEntry) : List Int :=
  match e.log_type with
  | .MTR_BEGIN => insertNew created e.trx_id
  | _ => created

/-- Every commit or default-branch entry of the list is preceded by a begin
of the same transaction id (relative to the initially created ids). -/
def chainOk (created : List Int) : List LogEntry → Bool
  | [] => true
  | e :: rest => safeEntry created e && chainOk (applyBegin created e) rest

namespace FrameManager

/-- The eviction condition of one visit of the eviction loop, relative to a
fixed pool (the pool never changes during eviction): the frame is
unpinned and the eviction action succeeds on it. -/
def evictOk (P0 : List Frame) (act : Nat → RC) (p : FrameId × Nat) : Bool :=
  decide (pinOfPool P0 p.2 = 0 ∧ act p.2 = RC.SUCCESS)

/-- An eviction action that always succeeds. -/
def actAlways : Nat → RC := fun _ => RC.SUCCESS

/-- An eviction action that fails on frame 0 and succeeds elsewhere. -/
def actNotZero : Nat → RC := fun r => if r = 0 then RC.INTERNAL else RC.SUCCESS

/-- Concrete state: one resident unpinned frame, empty free list. -/
def csOne : State :=
  { pool := [{ page_num := 0, pin_count := 0 }],
    free := [],
    cache := [({ file_desc := 0, page_num := 0 }, 0)] }

/-- Concrete state: three resident frames at indices 0, 1, 2 with pin
counts 0, 2, 0. -/
def csThree : State :=
  { pool := [{ page_num := 0, pin_count := 0 },
             { page_num := 1, pin_count := 2 },
             { page_num := 2, pin_count := 0 }],
    free := [],
    cache := [({ file_desc := 0, page_num := 0 }, 0),
              ({ file_desc := 0, page_num := 1 }, 1),
              ({ file_desc := 0, page_num := 2 }, 2)] }

/-- A concrete FrameId used by the witnesses. -/
def fidW : FrameId := { file_desc := 1, page_num := 5 }

/-- Concrete state: empty cache, one free frame. -/
def csFree : State :=
  { pool := [{ page_num := 0, pin_count := 0 }], free := [0], cache := [] }

/-- The state produced by allocating fidW in csFree. -/
def csAfterAlloc : State :=
  { pool := [{ page_num := 5, pin_count := 1 }],
    free := [],
    cache := [(fidW, 0)] }

/-- Concrete state: one resident frame pinned once, for the free witness. -/
def csPinned : State :=
  { pool := [{ page_num := 3, pin_count := 1 }],
    free := [],
    cache := [({ file_desc := 0, page_num := 3 }, 0)] }

end FrameManager

/-- Log entry: begin of transaction 1. -/
def beginOne : LogEntry := LogEntry.build_mtr_entry .MTR_BEGIN 1

/-- Log entry: commit of transaction 1. -/
def commitOne : LogEntry := LogEntry.build_commit_entry 1 7

/-- Log entry: an insert of transaction 1. -/
def insertOne : LogEntry :=
  { header := { log_type := .INSERT, trx_id := 1, log_entry_len := 24, lsn := 0 },
    payload := .record 2 (1, 0) 0 4 [1, 2, 3, 4] }

/-- Log entry: commit of transaction 5, which no begin precedes. -/
def commitFive : LogEntry := LogEntry.build_commit_entry 5 9

/-- Log file whose single clean entry is followed by a torn tail: a header
announcing a four-byte payload that was never written. -/
def tornAfterBegin : LogFileContent :=
  { entries := [beginOne],
    torn := .tornPayload { log_type := .INSERT, trx_id := 1, log_entry_len := 4, lsn := 0 } }

/-- Cleanly terminated log holding one committed transaction. -/
def cleanBeginCommit : LogFileContent :=
  { entries := [beginOne, commitOne], torn := .clean }

/-- Cleanly terminated log holding a single begin entry. -/
def cleanBeginOnly : LogFileContent :=
  { entries := [beginOne], torn := .clean }

/-- The empty log. -/
def emptyLog : LogFileContent :=
  { entries := [], torn := .clean }

/-- Cleanly terminated log of one full transaction, every commit and
mutation preceded by its begin. -/
def fullTrxLog : LogFileContent :=
  { entries := [beginOne, insertOne, commitOne], torn := .clean }

/-- The recovery state at entry of the loop: nothing created, nothing
uncommitted, no calls made. -/
def emptyRecSt : RecoverState :=
  { iter := IterState.start emptyLog, uncommitted := [], created := [], events := [] }

/-- The recovery state emptyRecSt after dispatching the begin of
transaction 1. -/
def stAfterBegin : RecoverState :=
  { iter := IterState.start emptyLog, uncommitted := [1], created := [1], events := [TrxEvent.create 1] }

/-- The recovery state stAfterBegin after dispatching the commit of
transaction 1. -/
def stAfterCommit : RecoverState :=
  { iter := IterState.start emptyLog, uncommitted := [], created := [1], events := [TrxEvent.create 1, TrxEvent.redo 1 commitOne] }


namespace FrameManager

theorem cacheKeys_nil : cacheKeys [] = [] := rfl

theorem cacheKeys_cons (p : FrameId × Nat) (rest : List (FrameId × Nat)) :
    cacheKeys (p :: rest) = p.1 :: cacheKeys rest := rfl

theorem cacheKeys_append (c1 c2 : List (FrameId × Nat)) :
    cacheKeys (c1 ++ c2) = cacheKeys c1 ++ cacheKeys c2 := by
  simp [cacheKeys]

theorem mem_cacheKeys {c : List (FrameId × Nat)} {fid : FrameId} {r : Nat}
    (h : (fid, r) ∈ c) : fid ∈ cacheKeys c :=
  List.mem_map_of_mem Prod.fst h

theorem lookupCache_eq_none {c : List (FrameId × Nat)} {fid : FrameId} :
    lookupCache c fid = none ↔ fid ∉ cacheKeys c := by
  induction c with
  | nil => simp [lookupCache, cacheKeys_nil]
  | cons p rest ih =>
    rw [cacheKeys_cons]
    by_cases h : p.1 = fid
    · subst h
      simp [lookupCache]
    · have h2 : fid ≠ p.1 := fun he => h he.symm
      simp only [lookupCache, if_neg h, List.mem_cons]
      rw [ih]
      constructor
      · intro hn hor
        exact hn (hor.resolve_left h2)
      · intro hn hm
        exact hn (Or.inr hm)

theorem lookupCache_mem {c : List (FrameId × Nat)} {fid : FrameId} {r : Nat}
    (h : lookupCache c fid = some r) : (fid, r) ∈ c := by
  induction c with
  | nil => simp [lookupCache] at h
  | cons p rest ih =>
    by_cases hp : p.1 = fid
    · simp only [lookupCache, if_pos hp, Option.some.injEq] at h
      subst h
      have : p = (fid, p.2) := by
        cases p
        simp at hp
        simp [hp]
      rw [← this]
      exact List.mem_cons_self p rest
    · simp only [lookupCache, if_neg hp] at h
      exact List.mem_cons_of_mem _ (ih h)

theorem mem_lookupCache {c : List (FrameId × Nat)} {fid : FrameId} {r : Nat}
    (hd : (cacheKeys c).Nodup) (h : (fid, r) ∈ c) : lookupCache c fid = some r := by
  induction c with
  | nil => simp at h
  | cons p rest ih =>
    rw [cacheKeys_cons, List.nodup_cons] at hd
    rcases List.mem_cons.mp h with he | hm
    · rw [← he]
      simp [lookupCache]
    · have hne : p.1 ≠ fid := by
        intro hpe
        exact hd.1 (hpe ▸ mem_cacheKeys hm)
      simp only [lookupCache, if_neg hne]
      exact ih hd.2 hm

theorem eraseKey_sublist (c : List (FrameId × Nat)) (fid : FrameId) :
    (eraseKey c fid).Sublist c := by
  induction c with
  | nil => simp [eraseKey]
  | cons p rest ih =>
    simp only [eraseKey]
    by_cases h : p.1 = fid
    · rw [if_pos h]
      exact List.sublist_cons_self p rest
    · rw [if_neg h]
      exact List.Sublist.cons₂ p ih

theorem cacheKeys_eraseKey_sublist (c : List (FrameId × Nat)) (fid : FrameId) :
    (cacheKeys (eraseKey c fid)).Sublist (cacheKeys c) :=
  (eraseKey_sublist c fid).map Prod.fst

theorem nodup_eraseKey {c : List (FrameId × Nat)} {fid : FrameId}
    (hd : (cacheKeys c).Nodup) : (cacheKeys (eraseKey c fid)).Nodup :=
  hd.sublist (cacheKeys_eraseKey_sublist c fid)

theorem length_eraseKey_of_lookup {c : List (FrameId × Nat)} {fid : FrameId} {r : Nat}
    (h : lookupCache c fid = some r) : (eraseKey c fid).length + 1 = c.length := by
  induction c with
  | nil => simp [lookupCache] at h
  | cons p rest ih =>
    by_cases hp : p.1 = fid
    · simp [eraseKey, hp]
    · simp [lookupCache, hp] at h
      simp [eraseKey, hp]
      exact ih h

theorem mem_eraseKey_of_ne {c : List (FrameId × Nat)} {fid q : FrameId} {t : Nat}
    (h : (q, t) ∈ c) (hne : q ≠ fid) : (q, t) ∈ eraseKey c fid := by
  induction c with
  | nil => simp at h
  | cons p rest ih =>
    simp only [eraseKey]
    rcases List.mem_cons.mp h with he | hm
    · rw [← he]
      rw [if_neg (show ¬((q, t).1 = fid) from hne)]
      exact List.mem_cons_self _ _
    · by_cases hp : p.1 = fid
      · rw [if_pos hp]
        exact hm
      · rw [if_neg hp]
        exact List.mem_cons_of_mem p (ih hm)

theorem not_mem_keys_eraseKey {c : List (FrameId × Nat)} {fid : FrameId}
    (hd : (cacheKeys c).Nodup) : fid ∉ cacheKeys (eraseKey c fid) := by
  induction c with
  | nil => simp [eraseKey, cacheKeys_nil]
  | cons p rest ih =>
    rw [cacheKeys_cons, List.nodup_cons] at hd
    simp only [eraseKey]
    by_cases hp : p.1 = fid
    · rw [if_pos hp]
      rw [← hp]
      exact hd.1
    · rw [if_neg hp, cacheKeys_cons]
      intro hmem
      rcases List.mem_cons.mp hmem with he | hm
      · exact hp he.symm
      · exact ih hd.2 hm

theorem lookupCache_append_left_none {c1 c2 : List (FrameId × Nat)} {fid : FrameId}
    (h : fid ∉ cacheKeys c1) :
    lookupCache (c1 ++ c2) fid = lookupCache c2 fid := by
  induction c1 with
  | nil => simp
  | cons p rest ih =>
    rw [cacheKeys_cons, List.mem_cons] at h
    push_neg at h
    have hp : p.1 ≠ fid := fun he => h.1 he.symm
    rw [List.cons_append]
    simp only [lookupCache, if_neg hp]
    exact ih h.2

theorem nodup_key_unique {c : List (FrameId × Nat)} {q : FrameId} {t1 t2 : Nat}
    (hd : (cacheKeys c).Nodup) (h1 : (q, t1) ∈ c) (h2 : (q, t2) ∈ c) : t1 = t2 := by
  have e1 := mem_lookupCache hd h1
  have e2 := mem_lookupCache hd h2
  have e3 : some t1 = some t2 := e1.symm.trans e2
  exact Option.some_injective _ e3

theorem pinOfPool_pinAt {pool : List Frame} {r : Nat} (h : r < pool.length) :
    pinOfPool (pinAt pool r) r = pinOfPool pool r + 1 := by
  induction pool generalizing r with
  | nil => simp at h
  | cons f rest ih =>
    cases r with
    | zero => simp [pinAt, pinOfPool, Frame.pin]
    | succ n =>
      simp [pinAt, pinOfPool]
      exact ih (by simpa using h)

theorem pinOfPool_unpinAt {pool : List Frame} {r : Nat} (h : r < pool.length) :
    pinOfPool (unpinAt pool r) r = pinOfPool pool r - 1 := by
  induction pool generalizing r with
  | nil => simp at h
  | cons f rest ih =>
    cases r with
    | zero => simp [unpinAt, pinOfPool, Frame.unpin]
    | succ n =>
      simp [unpinAt, pinOfPool]
      exact ih (by simpa using h)

theorem pinOfPool_setPageAt (pool : List Frame) (r : Nat) (pg : Int) :
    pinOfPool (setPageAt pool r pg) r = pinOfPool pool r := by
  induction pool generalizing r with
  | nil => simp [setPageAt]
  | cons f rest ih =>
    cases r with
    | zero => simp [setPageAt, pinOfPool]
    | succ n =>
      simp [setPageAt, pinOfPool]
      exact ih n

theorem length_pinAt (pool : List Frame) (r : Nat) :
    (pinAt pool r).length = pool.length := by
  induction pool generalizing r with
  | nil => simp [pinAt]
  | cons f rest ih =>
    cases r with
    | zero => simp [pinAt]
    | succ n => simp [pinAt, ih n]

theorem length_unpinAt (pool : List Frame) (r : Nat) :
    (unpinAt pool r).length = pool.length := by
  induction pool generalizing r with
  | nil => simp [unpinAt]
  | cons f rest ih =>
    cases r with
    | zero => simp [unpinAt]
    | succ n => simp [unpinAt, ih n]

theorem length_setPageAt (pool : List Frame) (r : Nat) (pg : Int) :
    (setPageAt pool r pg).length = pool.length := by
  induction pool generalizing r with
  | nil => simp [setPageAt]
  | cons f rest ih =>
    cases r with
    | zero => simp [setPageAt]
    | succ n => simp [setPageAt, ih n]

end FrameManager

namespace FrameManager

theorem evictVisit_pos {act : Nat → RC} {s : State} {ev : Nat} {fid : FrameId} {r : Nat}
    (h1 : s.pinOf r = 0) (h2 : act r = RC.SUCCESS) :
    evictVisit act s ev fid r =
      ({ s with cache := eraseKey s.cache fid, free := r :: s.free }, ev + 1) := by
  simp [evictVisit, h1, h2]

theorem evictVisit_neg {act : Nat → RC} {s : State} {ev : Nat} {fid : FrameId} {r : Nat}
    (h : ¬(s.pinOf r = 0 ∧ act r = RC.SUCCESS)) :
    evictVisit act s ev fid r = (s, ev) := by
  by_cases h1 : s.pinOf r = 0
  · by_cases h2 : act r = RC.SUCCESS
    · exact absurd ⟨h1, h2⟩ h
    · simp [evictVisit, h1, h2]
  · simp [evictVisit, h1]

theorem evictAux_count (act : Nat → RC) (count : Nat) (P0 : List Frame) :
    ∀ (l : List (FrameId × Nat)) (s : State) (ev : Nat), s.pool = P0 → ev < count →
    (evictAux act count l s ev).2 = min count (ev + l.countP (evictOk P0 act)) := by
  intro l
  induction l with
  | nil =>
    intro s ev _ hev
    simp [evictAux]
    omega
  | cons p rest ih =>
    intro s ev hP hev
    obtain ⟨fid, r⟩ := p
    by_cases h1 : s.pinOf r = 0
    · by_cases h2 : act r = RC.SUCCESS
      · have h1p : pinOfPool P0 r = 0 := hP ▸ h1
        have hcnt : ((fid, r) :: rest).countP (evictOk P0 act)
            = rest.countP (evictOk P0 act) + 1 := by
          simp [List.countP_cons, evictOk, h1p, h2]
        rw [hcnt]
        simp only [evictAux, evictVisit_pos h1 h2]
        by_cases h3 : ev + 1 < count
        · rw [if_pos h3]
          have hgoal := ih { pool := s.pool, free := r :: s.free, cache := eraseKey s.cache fid } (ev + 1) hP h3
          rw [hgoal]
          omega
        · rw [if_neg h3]
          simp only []
          omega
      · have h2p : ¬(pinOfPool P0 r = 0 ∧ act r = RC.SUCCESS) := by
          intro hc
          exact h2 hc.2
        have hcnt : ((fid, r) :: rest).countP (evictOk P0 act)
            = rest.countP (evictOk P0 act) := by
          simp [List.countP_cons, evictOk, h2p]
        rw [hcnt]
        simp only [evictAux, evictVisit_neg (fun hc => h2 hc.2)]
        rw [if_pos hev]
        exact ih _ _ hP hev
    · have h2p : ¬(pinOfPool P0 r = 0 ∧ act r = RC.SUCCESS) := by
        intro hc
        apply h1
        show pinOfPool s.pool r = 0
        rw [hP]
        exact hc.1
      have hcnt : ((fid, r) :: rest).countP (evictOk P0 act)
          = rest.countP (evictOk P0 act) := by
        simp [List.countP_cons, evictOk, h2p]
      rw [hcnt]
      simp only [evictAux, evictVisit_neg (fun hc => h1 hc.1)]
      rw [if_pos hev]
      exact ih _ _ hP hev

end FrameManager

namespace FrameManager

theorem evictAux_main (act : Nat → RC) (count : Nat) (P0 : List Frame) :
    ∀ (l : List (FrameId × Nat)) (s : State) (ev : Nat),
    s.pool = P0 →
    (∀ p ∈ l, p ∈ s.cache) →
    (cacheKeys s.cache).Nodup →
    (cacheKeys l).Nodup →
    ev ≤ (evictAux act count l s ev).2 ∧
    (evictAux act count l s ev).1.pool = P0 ∧
    (evictAux act count l s ev).1.cache.length + ((evictAux act count l s ev).2 - ev)
      = s.cache.length ∧
    (evictAux act count l s ev).1.free.length
      = s.free.length + ((evictAux act count l s ev).2 - ev) ∧
    (∀ q t, (q, t) ∈ s.cache → ¬(pinOfPool P0 t = 0 ∧ act t = RC.SUCCESS) →
      (q, t) ∈ (evictAux act count l s ev).1.cache) := by
  intro l
  induction l with
  | nil =>
    intro s ev hP _ _ _
    simp only [evictAux]
    exact ⟨le_refl ev, hP, by simp, by simp, fun q t h _ => h⟩
  | cons p rest ih =>
    intro s ev hP hl hnc hnl
    obtain ⟨fid, r⟩ := p
    have hmem : (fid, r) ∈ s.cache := hl _ (List.mem_cons_self _ _)
    rw [cacheKeys_cons, List.nodup_cons] at hnl
    by_cases hok : s.pinOf r = 0 ∧ act r = RC.SUCCESS
    · obtain ⟨h1, h2⟩ := hok
      have hlook : lookupCache s.cache fid = some r := mem_lookupCache hnc hmem
      have hlen2 : (eraseKey s.cache fid).length + 1 = s.cache.length :=
        length_eraseKey_of_lookup hlook
      have hl2 : ∀ p ∈ rest, p ∈ eraseKey s.cache fid := by
        intro p hp
        have hpk : p.1 ∈ cacheKeys rest := mem_cacheKeys (by exact hp)
        have hpne : p.1 ≠ fid := fun he => hnl.1 (he ▸ hpk)
        exact mem_eraseKey_of_ne (hl p (List.mem_cons_of_mem _ hp)) hpne
      have hnc2 : (cacheKeys (eraseKey s.cache fid)).Nodup := nodup_eraseKey hnc
      have hpres1 : ∀ q t, (q, t) ∈ s.cache →
          ¬(pinOfPool P0 t = 0 ∧ act t = RC.SUCCESS) → (q, t) ∈ eraseKey s.cache fid := by
        intro q t hq hbad
        by_cases hqf : q = fid
        · subst hqf
          have ht : t = r := nodup_key_unique hnc hq hmem
          subst ht
          exact absurd ⟨hP ▸ h1, h2⟩ hbad
        · exact mem_eraseKey_of_ne hq hqf
      simp only [evictAux, evictVisit_pos h1 h2]
      by_cases h3 : ev + 1 < count
      · rw [if_pos h3]
        have IH := ih { pool := s.pool, free := r :: s.free, cache := eraseKey s.cache fid }
          (ev + 1) hP hl2 hnc2 hnl.2
        obtain ⟨ihev, ihpool, ihlen, ihfree, ihpres⟩ := IH
        simp only [List.length_cons] at ihlen ihfree
        refine ⟨by omega, ihpool, by omega, by omega, ?_⟩
        intro q t hq hbad
        exact ihpres q t (hpres1 q t hq hbad) hbad
      · rw [if_neg h3]
        refine ⟨by omega, hP, ?_, ?_, ?_⟩
        · simp only []
          omega
        · simp only [List.length_cons]
          omega
        · intro q t hq hbad
          exact hpres1 q t hq hbad
    · simp only [evictAux, evictVisit_neg hok]
      by_cases h3 : ev < count
      · rw [if_pos h3]
        exact ih s ev hP (fun p hp => hl p (List.mem_cons_of_mem _ hp)) hnc hnl.2
      · rw [if_neg h3]
        exact ⟨le_refl _, hP, by simp, by simp, fun q t h _ => h⟩

end FrameManager

namespace FrameManager

theorem countP_evictOk_always {P0 : List Frame} {act : Nat → RC}
    (hact : ∀ r, act r = RC.SUCCESS) (l : List (FrameId × Nat)) :
    l.countP (evictOk P0 act) = l.countP (fun p => decide (pinOfPool P0 p.2 = 0)) := by
  induction l with
  | nil => rfl
  | cons p rest ih =>
    simp [List.countP_cons, evictOk, hact, ih]

end FrameManager

open FrameManager in
/-- C2 (amended). For a count of at least one and an eviction action that
always succeeds, evict_frames removes exactly min(count, k) frames from the
cache and returns them to the allocator, where k is the number of resident
frames with pin count zero, and it returns min(count, k). For a count of
zero the stop condition is only checked after the first visit: the first
frame in eviction order is still evicted when its pin count is zero, so
the call returns one in that case and zero otherwise. -/
theorem c2_evict_min (s : State) (count : Nat) (act : Nat → RC)
    (hact : ∀ r, act r = RC.SUCCESS) (hnd : (cacheKeys s.cache).Nodup) :
    (1 ≤ count →
      (evict_frames s count act).2 = min count (numEvictable s) ∧
      (evict_frames s count act).1.cache.length
        = s.cache.length - min count (numEvictable s) ∧
      (evict_frames s count act).1.free.length
        = s.free.length + min count (numEvictable s)) ∧
    (s.cache = [] → (evict_frames s 0 act).2 = 0) ∧
    (∀ p rest2, s.cache = p :: rest2 →
      (evict_frames s 0 act).2 = if s.pinOf p.2 = 0 then 1 else 0) := by
  have hcnt : s.cache.countP (evictOk s.pool act) = numEvictable s := by
    rw [countP_evictOk_always hact]
    rfl
  refine ⟨?_, ?_, ?_⟩
  · intro hc
    have hcount := evictAux_count act count s.pool s.cache s 0 rfl hc
    have hmain := evictAux_main act count s.pool
      s.cache s 0 rfl (fun p hp => hp) hnd hnd
    obtain ⟨hev, _, hlen, hfree, _⟩ := hmain
    simp only [evict_frames]
    refine ⟨?_, ?_, ?_⟩
    · rw [hcount, hcnt]
      omega
    · omega
    · omega
  · intro hc
    simp only [evict_frames]
    rw [hc]
    rfl
  · intro p rest2 hc
    obtain ⟨fid, r⟩ := p
    simp only [evict_frames]
    rw [hc]
    by_cases h1 : s.pinOf r = 0
    · simp [evictAux, evictVisit_pos h1 (hact r), h1]
    · simp [evictAux, evictVisit_neg (fun hcc => h1 hcc.1), h1]

open FrameManager in
/-- C2 witness: on a concrete pool with two evictable frames among three,
a count of one evicts exactly one frame, and a count of zero still evicts
the first frame in eviction order. -/
theorem c2_evict_min_witness :
    (evict_frames csThree 1 actAlways).2 = min 1 (numEvictable csThree) ∧
    (evict_frames csThree 0 actAlways).2 = 1 := by
  have h := c2_evict_min csThree 1 actAlways (fun r => rfl) (by decide)
  constructor
  · exact (h.1 (by decide)).1
  · have h2 := h.2.2 ({ file_desc := 0, page_num := 0 }, 0)
      [({ file_desc := 0, page_num := 1 }, 1), ({ file_desc := 0, page_num := 2 }, 2)] rfl
    rw [h2]
    decide

open FrameManager in
/-- C2 counterexample: the claim demands that evict_frames(0, action)
evicts nothing, but on a cache whose first frame is unpinned the loop
visits that frame before checking the stop condition, evicts it, and
returns 1, not min(0, k) = 0. -/
theorem c2_evict_zero_counterexample :
    numEvictable csOne = 1 ∧
    (evict_frames csOne 0 actAlways).2 = 1 ∧
    (evict_frames csOne 0 actAlways).2 ≠ min 0 (numEvictable csOne) := by
  refine ⟨by decide, by decide, by decide⟩

open FrameManager in
/-- C6: evict_frames never removes a pinned frame from the cache, and a
frame whose eviction action fails also stays resident; iteration proceeds
past such frames, so with a positive count the number of evictions equals
min(count, number of unpinned frames whose action succeeds). -/
theorem c6_evict_preserves (s : State) (count : Nat) (act : Nat → RC)
    (hnd : (cacheKeys s.cache).Nodup) :
    (∀ q t, (q, t) ∈ s.cache → (s.pinOf t ≠ 0 ∨ act t ≠ RC.SUCCESS) →
      (q, t) ∈ (evict_frames s count act).1.cache) ∧
    (1 ≤ count →
      (evict_frames s count act).2 = min count (s.cache.countP (evictOk s.pool act))) := by
  constructor
  · intro q t hq hbad
    have hmain := evictAux_main act count s.pool
      s.cache s 0 rfl (fun p hp => hp) hnd hnd
    apply hmain.2.2.2.2 q t hq
    intro hcon
    rcases hbad with hb | hb
    · exact hb hcon.1
    · exact hb hcon.2
  · intro hc
    have := evictAux_count act count s.pool s.cache s 0 rfl hc
    simpa [evict_frames] using this

open FrameManager in
/-- C6 witness: with an action failing on frame 0, the unpinned frame 0
stays resident, the pinned frame 1 stays resident, and the later unpinned
frame 2 is still evicted, so the count is one. -/
theorem c6_evict_preserves_witness :
    (({ file_desc := 0, page_num := 0 } : FrameId), 0)
      ∈ (evict_frames csThree 1 actNotZero).1.cache ∧
    (({ file_desc := 0, page_num := 1 } : FrameId), 1)
      ∈ (evict_frames csThree 1 actNotZero).1.cache ∧
    (evict_frames csThree 1 actNotZero).2 = 1 := by
  have h := c6_evict_preserves csThree 1 actNotZero (by decide)
  refine ⟨h.1 _ 0 (by decide) (Or.inr (by decide)),
          h.1 _ 1 (by decide) (Or.inl (by decide)), ?_⟩
  rw [h.2 (by decide)]
  decide


namespace FrameManager

theorem length_moveToBack (c : List (FrameId × Nat)) (fid : FrameId) :
    (moveToBack c fid).length = c.length := by
  unfold moveToBack
  cases hl : lookupCache c fid with
  | none => rfl
  | some r =>
    have := length_eraseKey_of_lookup hl
    simp
    omega

theorem lt_length_of_pin_ne {pool : List Frame} {r : Nat}
    (h : pinOfPool pool r ≠ 0) : r < pool.length := by
  induction pool generalizing r with
  | nil => exact absurd rfl h
  | cons f rest ih =>
    cases r with
    | zero => simp
    | succ n =>
      have hn : pinOfPool rest n ≠ 0 := h
      simpa using ih hn

theorem get_found {s : State} {fid : FrameId} {r : Nat}
    (hl : lookupCache s.cache fid = some r) :
    get s fid = (some r, { s with pool := pinAt s.pool r, cache := moveToBack s.cache fid }) := by
  simp [get, get_internal, hl]

theorem get_missing {s : State} {fid : FrameId}
    (hl : lookupCache s.cache fid = none) :
    get s fid = (none, s) := by
  simp [get, get_internal, hl]

theorem alloc_resident {s : State} {fid : FrameId} {r : Nat}
    (hl : lookupCache s.cache fid = some r) :
    alloc s fid = some (some r, { s with pool := pinAt s.pool r, cache := moveToBack s.cache fid }) := by
  simp [alloc, get_internal, hl]

theorem alloc_exhausted {s : State} {fid : FrameId}
    (hl : lookupCache s.cache fid = none) (hf : s.free = []) :
    alloc s fid = some (none, s) := by
  simp [alloc, get_internal, hl, hf]

theorem alloc_fresh {s : State} {fid : FrameId} {r0 : Nat} {rest : List Nat}
    (hl : lookupCache s.cache fid = none) (hf : s.free = r0 :: rest)
    (hpin : s.pinOf r0 = 0) :
    alloc s fid = some (some r0,
      { s with pool := pinAt (setPageAt s.pool r0 fid.page_num) r0,
               free := rest, cache := s.cache ++ [(fid, r0)] }) := by
  simp [alloc, get_internal, hl, hf, hpin]

theorem alloc_assert {s : State} {fid : FrameId} {r0 : Nat} {rest : List Nat}
    (hl : lookupCache s.cache fid = none) (hf : s.free = r0 :: rest)
    (hpin : s.pinOf r0 ≠ 0) :
    alloc s fid = none := by
  simp [alloc, get_internal, hl, hf, hpin]

theorem free_pos {s : State} {fid : FrameId} {r : Nat}
    (hl : lookupCache s.cache fid = some r) (hpin : s.pinOf r = 1) :
    free s fid r = some (RC.SUCCESS,
      { s with pool := unpinAt s.pool r, free := r :: s.free, cache := eraseKey s.cache fid }) := by
  simp [free, free_internal, hl, hpin]

theorem free_neg {s : State} {fid : FrameId} {r : Nat}
    (hn : ¬(lookupCache s.cache fid = some r ∧ s.pinOf r = 1)) :
    free s fid r = none := by
  simp only [free, free_internal, if_neg hn]

end FrameManager

namespace FrameManager

theorem stepOp_sum {s s1 : State} {op : Op} (h : stepOp s op = some s1) :
    s1.cache.length + s1.free.length = s.cache.length + s.free.length := by
  cases op with
  | get fid =>
    cases hl : lookupCache s.cache fid with
    | none =>
      simp only [stepOp, get_missing hl, Option.some.injEq] at h
      subst h
      rfl
    | some r =>
      simp only [stepOp, get_found hl, Option.some.injEq] at h
      subst h
      simp [length_moveToBack]
  | alloc fid =>
    cases hl : lookupCache s.cache fid with
    | some r =>
      simp only [stepOp, alloc_resident hl, Option.map_some', Option.some.injEq] at h
      subst h
      simp [length_moveToBack]
    | none =>
      cases hfree : s.free with
      | nil =>
        simp only [stepOp, alloc_exhausted hl hfree, Option.map_some', Option.some.injEq] at h
        subst h
        rw [hfree]
      | cons r0 rest =>
        by_cases hpin : s.pinOf r0 = 0
        · simp only [stepOp, alloc_fresh hl hfree hpin, Option.map_some', Option.some.injEq] at h
          subst h
          simp [hfree]
          omega
        · simp [stepOp, alloc_assert hl hfree hpin] at h
  | free fid r =>
    by_cases hc : lookupCache s.cache fid = some r ∧ s.pinOf r = 1
    · simp only [stepOp, free_pos hc.1 hc.2, Option.map_some', Option.some.injEq] at h
      subst h
      have := length_eraseKey_of_lookup hc.1
      simp
      omega
    · simp [stepOp, free_neg hc] at h

theorem run_sum : ∀ (ops : List Op) (s0 s : State), run s0 ops = some s →
    s.cache.length + s.free.length = s0.cache.length + s0.free.length := by
  intro ops
  induction ops with
  | nil =>
    intro s0 s h
    simp only [run, Option.some.injEq] at h
    subst h
    rfl
  | cons op rest ih =>
    intro s0 s h
    simp only [run] at h
    cases hstep : stepOp s0 op with
    | none =>
      rw [hstep] at h
      simp at h
    | some s1 =>
      rw [hstep] at h
      have h1 := stepOp_sum hstep
      have h2 := ih s1 s h
      omega

end FrameManager

open FrameManager in
/-- C4: when alloc(fd, p) returns a frame r, a subsequent get(fd, p)
returns the same r and increments its pin count by one relative to the
state after the alloc; and get never allocates: on a non-resident FrameId
it returns null and leaves the state untouched. -/
theorem c4_alloc_get (s : State) (fid : FrameId) (r : Nat) (s1 : State)
    (hwf : s.Wf) (h : alloc s fid = some (some r, s1)) :
    (FrameManager.get s1 fid).1 = some r ∧
    (FrameManager.get s1 fid).2.pinOf r = s1.pinOf r + 1 ∧
    (∀ (t : State) (q : FrameId), lookupCache t.cache q = none →
      FrameManager.get t q = (none, t)) := by
  obtain ⟨hwf1, hwf2, hwf3⟩ := hwf
  have hmain : lookupCache s1.cache fid = some r ∧ r < s1.pool.length := by
    cases hl : lookupCache s.cache fid with
    | some r0 =>
      rw [alloc_resident hl] at h
      simp only [Option.some.injEq, Prod.mk.injEq] at h
      obtain ⟨hr, hs⟩ := h
      subst hr
      subst hs
      constructor
      · show lookupCache (moveToBack s.cache fid) fid = some r0
        simp only [moveToBack, hl]
        rw [lookupCache_append_left_none (not_mem_keys_eraseKey hwf3)]
        simp [lookupCache]
      · show r0 < (pinAt s.pool r0).length
        rw [length_pinAt]
        exact hwf1 _ (lookupCache_mem hl)
    | none =>
      cases hfree : s.free with
      | nil =>
        rw [alloc_exhausted hl hfree] at h
        simp at h
      | cons r0 rest =>
        by_cases hpin : s.pinOf r0 = 0
        · rw [alloc_fresh hl hfree hpin] at h
          simp only [Option.some.injEq, Prod.mk.injEq] at h
          obtain ⟨hr, hs⟩ := h
          subst hr
          subst hs
          constructor
          · show lookupCache (s.cache ++ [(fid, r0)]) fid = some r0
            rw [lookupCache_append_left_none (lookupCache_eq_none.mp hl)]
            simp [lookupCache]
          · show r0 < (pinAt (setPageAt s.pool r0 fid.page_num) r0).length
            rw [length_pinAt, length_setPageAt]
            exact hwf2 _ (hfree ▸ List.mem_cons_self r0 rest)
        · rw [alloc_assert hl hfree hpin] at h
          simp at h
  obtain ⟨hl1, hr1⟩ := hmain
  refine ⟨?_, ?_, ?_⟩
  · rw [get_found hl1]
  · rw [get_found hl1]
    show pinOfPool (pinAt s1.pool r) r = s1.pinOf r + 1
    exact pinOfPool_pinAt hr1
  · intro t q hq
    exact get_missing hq

open FrameManager in
/-- C4 witness: allocating (1, 5) in a one-frame pool and then getting it
returns the same frame with its pin count raised from one to two. -/
theorem c4_alloc_get_witness :
    (FrameManager.get csAfterAlloc fidW).1 = some 0 ∧
    (FrameManager.get csAfterAlloc fidW).2.pinOf 0 = csAfterAlloc.pinOf 0 + 1 := by
  have h := c4_alloc_get csFree fidW 0 csAfterAlloc (by decide) (by decide)
  exact ⟨h.1, h.2.1⟩

open FrameManager in
/-- C5: every sequence of alloc, get and free operations on a manager
initialized with pool size P keeps the number of resident frames at
most P. -/
theorem c5_resident_bound (P : Nat) (ops : List Op) (s : State)
    (h : run (init P) ops = some s) : s.cache.length ≤ P := by
  have hsum := run_sum ops (init P) s h
  have hinit : (init P).cache.length + (init P).free.length = P := by
    simp [init]
  omega

open FrameManager in
/-- C5 witness: one alloc on a pool of size one leaves one resident frame,
within the bound. -/
theorem c5_resident_bound_witness : csAfterAlloc.cache.length ≤ 1 :=
  c5_resident_bound 1 [Op.alloc fidW] csAfterAlloc (by decide)

open FrameManager in
/-- C7: free(fd, p, frame) succeeds exactly when the passed frame is the
resident entry for (fd, p) and its pin count is one; then the entry leaves
the cache, the frame returns to the allocator with pin count zero, and the
call returns SUCCESS. In every other case the assertion fires (modelled as
none: the call does not return normally). -/
theorem c7_free_contract (s : State) (fid : FrameId) (r : Nat)
    (hnd : (cacheKeys s.cache).Nodup) :
    (lookupCache s.cache fid = some r → s.pinOf r = 1 →
      ∃ s1, FrameManager.free s fid r = some (RC.SUCCESS, s1) ∧
        s1.cache = eraseKey s.cache fid ∧
        lookupCache s1.cache fid = none ∧
        s1.free = r :: s.free ∧
        s1.pinOf r = 0) ∧
    (¬(lookupCache s.cache fid = some r ∧ s.pinOf r = 1) →
      FrameManager.free s fid r = none) := by
  constructor
  · intro hl hpin
    have hr : r < s.pool.length := by
      apply lt_length_of_pin_ne
      show s.pinOf r ≠ 0
      rw [hpin]
      exact one_ne_zero
    refine ⟨{ s with pool := unpinAt s.pool r, free := r :: s.free, cache := eraseKey s.cache fid },
      free_pos hl hpin, rfl, ?_, rfl, ?_⟩
    · show lookupCache (eraseKey s.cache fid) fid = none
      exact lookupCache_eq_none.mpr (not_mem_keys_eraseKey hnd)
    · show pinOfPool (unpinAt s.pool r) r = 0
      rw [pinOfPool_unpinAt hr]
      rw [show pinOfPool s.pool r = s.pinOf r from rfl, hpin]
  · intro hn
    exact free_neg hn

open FrameManager in
/-- C7 witness: freeing the single resident frame with pin count one
succeeds and empties the cache; passing a different frame makes the
assertion fire. -/
theorem c7_free_contract_witness :
    (∃ s1, FrameManager.free csPinned { file_desc := 0, page_num := 3 } 0
        = some (RC.SUCCESS, s1) ∧
      s1.cache = eraseKey csPinned.cache { file_desc := 0, page_num := 3 } ∧
      lookupCache s1.cache { file_desc := 0, page_num := 3 } = none ∧
      s1.free = 0 :: csPinned.free ∧
      s1.pinOf 0 = 0) ∧
    FrameManager.free csPinned { file_desc := 0, page_num := 3 } 1 = none := by
  constructor
  · exact (c7_free_contract csPinned _ 0 (by decide)).1 (by decide) (by decide)
  · exact (c7_free_contract csPinned _ 1 (by decide)).2 (by decide)

theorem mem_insertNew {l : List Int} {x y : Int} :
    x ∈ insertNew l y ↔ (x ∈ l ∨ x = y) := by
  by_cases h : y ∈ l
  · simp only [insertNew, if_pos h]
    constructor
    · exact Or.inl
    · rintro (h1 | rfl)
      · exact h1
      · exact h
  · simp [insertNew, if_neg h]

theorem insertNew_mem {l : List Int} {x y : Int} (h : x ∈ l) : x ∈ insertNew l y :=
  mem_insertNew.mpr (Or.inl h)

theorem insertNew_self (l : List Int) (y : Int) : y ∈ insertNew l y :=
  mem_insertNew.mpr (Or.inr rfl)

theorem subset_applyBegin {c : List Int} {x : Int} (e : LogEntry) (h : x ∈ c) :
    x ∈ applyBegin c e := by
  unfold applyBegin
  cases e.log_type <;> first | exact insertNew_mem h | exact h

theorem safeEntry_mono {c1 c2 : List Int} {e : LogEntry}
    (hsub : ∀ x ∈ c1, x ∈ c2) (h : safeEntry c1 e = true) : safeEntry c2 e = true := by
  cases ht : e.log_type <;> simp only [safeEntry, ht] at h ⊢ <;>
    first
    | rfl
    | exact decide_eq_true (hsub _ (of_decide_eq_true h))

theorem next_cons {it : IterState} {e2 : LogEntry} {rest : List LogEntry}
    (h : it.remaining = e2 :: rest) :
    it.next.2 = { it with remaining := rest, log_entry := some e2 } := by
  simp only [IterState.next, h]

theorem next_empty {it : IterState} (h : it.remaining = []) : it.next.2 = it := by
  cases ht : it.torn <;> simp only [IterState.next, h, ht]

theorem recoverDispatch_safe {e : LogEntry} {st : RecoverState}
    (hsafe : safeEntry st.created e = true) :
    ∃ st1, recoverDispatch e st = some st1 ∧
      st1.iter = st.iter ∧
      st1.created = applyBegin st.created e ∧
      ((∀ x ∈ st.uncommitted, x ∈ st.created) →
        ∀ x ∈ st1.uncommitted, x ∈ st1.created) := by
  cases ht : e.log_type with
  | MTR_BEGIN =>
    refine ⟨{ iter := st.iter, uncommitted := insertNew st.uncommitted e.trx_id,
              created := insertNew st.created e.trx_id,
              events := st.events ++ [TrxEvent.create e.trx_id] },
            by simp only [recoverDispatch, ht], rfl, by simp [applyBegin, ht], ?_⟩
    intro hsub x hx
    rcases mem_insertNew.mp hx with hm | he
    · exact insertNew_mem (hsub x hm)
    · exact he ▸ insertNew_self _ _
  | MTR_COMMIT =>
    simp only [safeEntry, ht] at hsafe
    have hmem : e.trx_id ∈ st.created := of_decide_eq_true hsafe
    refine ⟨{ iter := st.iter, uncommitted := st.uncommitted.erase e.trx_id,
              created := st.created, events := st.events ++ [TrxEvent.redo e.trx_id e] },
            by simp only [recoverDispatch, ht, if_pos hmem], rfl,
            by simp [applyBegin, ht], ?_⟩
    intro hsub x hx
    exact hsub x (List.mem_of_mem_erase hx)
  | ERROR =>
    exact ⟨st, by simp only [recoverDispatch, ht], rfl, by simp [applyBegin, ht],
           fun hsub => hsub⟩
  | MTR_ROLLBACK =>
    simp only [safeEntry, ht] at hsafe
    have hmem : e.trx_id ∈ st.created := of_decide_eq_true hsafe
    refine ⟨{ iter := st.iter, uncommitted := st.uncommitted, created := st.created,
              events := st.events ++ [TrxEvent.redo e.trx_id e] },
            by simp only [recoverDispatch, ht, if_pos hmem], rfl,
            by simp [applyBegin, ht], ?_⟩
    intro hsub x hx
    exact hsub x hx
  | INSERT =>
    simp only [safeEntry, ht] at hsafe
    have hmem : e.trx_id ∈ st.created := of_decide_eq_true hsafe
    refine ⟨{ iter := st.iter, uncommitted := st.uncommitted, created := st.created,
              events := st.events ++ [TrxEvent.redo e.trx_id e] },
            by simp only [recoverDispatch, ht, if_pos hmem], rfl,
            by simp [applyBegin, ht], ?_⟩
    intro hsub x hx
    exact hsub x hx
  | DELETE =>
    simp only [safeEntry, ht] at hsafe
    have hmem : e.trx_id ∈ st.created := of_decide_eq_true hsafe
    refine ⟨{ iter := st.iter, uncommitted := st.uncommitted, created := st.created,
              events := st.events ++ [TrxEvent.redo e.trx_id e] },
            by simp only [recoverDispatch, ht, if_pos hmem], rfl,
            by simp [applyBegin, ht], ?_⟩
    intro hsub x hx
    exact hsub x hx
  | UPDATE =>
    simp only [safeEntry, ht] at hsafe
    have hmem : e.trx_id ∈ st.created := of_decide_eq_true hsafe
    refine ⟨{ iter := st.iter, uncommitted := st.uncommitted, created := st.created,
              events := st.events ++ [TrxEvent.redo e.trx_id e] },
            by simp only [recoverDispatch, ht, if_pos hmem], rfl,
            by simp [applyBegin, ht], ?_⟩
    intro hsub x hx
    exact hsub x hx

theorem chainOk_cons (c : List Int) (e : LogEntry) (l : List LogEntry) :
    chainOk c (e :: l) = (safeEntry c e && chainOk (applyBegin c e) l) := rfl

theorem recoverLoop_none :
    ∀ (fuel : Nat) (st : RecoverState) (e : LogEntry),
    st.iter.log_entry = some e →
    safeEntry st.created e = true →
    chainOk (applyBegin st.created e) st.iter.remaining = true →
    recoverLoop fuel st = none := by
  intro fuel
  induction fuel with
  | zero =>
    intro st e _ _ _
    rfl
  | succ n ih =>
    intro st e hcur hsafe hchain
    obtain ⟨st1, hd, hiter, hcreated, _⟩ := recoverDispatch_safe hsafe
    simp only [recoverLoop, hcur, hd]
    cases hrem : st.iter.remaining with
    | nil =>
      have hnext : st1.iter.next.2 = st.iter := by
        rw [hiter]
        exact next_empty hrem
      apply ih _ e
      · show (st1.iter.next.2).log_entry = some e
        rw [hnext]
        exact hcur
      · show safeEntry st1.created e = true
        rw [hcreated]
        exact safeEntry_mono (fun x hx => subset_applyBegin e hx) hsafe
      · show chainOk (applyBegin st1.created e) (st1.iter.next.2).remaining = true
        rw [hnext, hrem]
        rfl
    | cons e2 rest =>
      have hnext : st1.iter.next.2
          = { st.iter with remaining := rest, log_entry := some e2 } := by
        rw [hiter]
        exact next_cons hrem
      rw [hrem, chainOk_cons, Bool.and_eq_true] at hchain
      apply ih _ e2
      · show (st1.iter.next.2).log_entry = some e2
        rw [hnext]
      · show safeEntry st1.created e2 = true
        rw [hcreated]
        exact hchain.1
      · show chainOk (applyBegin st1.created e2) (st1.iter.next.2).remaining = true
        rw [hnext]
        show chainOk (applyBegin st1.created e2) rest = true
        rw [hcreated]
        exact hchain.2

theorem recover_nonempty_none (f : LogFileContent) (fuel : Nat)
    (e : LogEntry) (rest : List LogEntry) (hent : f.entries = e :: rest)
    (hchain : chainOk [] f.entries = true) :
    recover fuel f = none := by
  have hst : (IterState.start f).next.2
      = { remaining := rest, torn := f.torn, log_entry := some e } := by
    rw [next_cons (show (IterState.start f).remaining = e :: rest from hent)]
    rfl
  rw [hent, chainOk_cons, Bool.and_eq_true] at hchain
  have hloop : recoverLoop fuel
      { iter := { remaining := rest, torn := f.torn, log_entry := some e },
        uncommitted := [], created := [], events := [] } = none := by
    apply recoverLoop_none fuel _ e rfl
    · exact hchain.1
    · exact hchain.2
  simp only [recover, hst, hloop]

/-- C8: append_log on a null entry returns INVALID_ARGUMENT and leaves the
log buffer untouched; append_record_log surfaces NOMEM when
build_record_entry returns null because the entry allocation failed. -/
theorem c8_append_errors (m : LogManager) (t : LogEntryType) (trx_id table_id : Int)
    (rid : Int × Int) (data_len data_offset : Int) (data : List Nat) :
    m.append_log none = (RC.INVALID_ARGUMENT, m) ∧
    m.append_record_log false t trx_id table_id rid data_len data_offset data
      = (RC.NOMEM, m) := by
  exact ⟨rfl, rfl⟩

/-- C1 (code bug): on a log whose clean entry is followed by a torn tail,
the iterator does return an I/O error for the failed payload read, but
recovery does not stop there: a failed next() leaves the previously parsed
entry stored, valid() stays true, and the for loop re-dispatches the last
clean entry forever — recover never returns and never reaches the rollback
pass, for any number of loop rounds. -/
theorem c1_torn_tail_loops :
    ((IterState.start tornAfterBegin).next.2.next.1 = RC.IOERR) ∧
    (∀ fuel, recover fuel tornAfterBegin = none) := by
  constructor
  · rfl
  · intro fuel
    exact recover_nonempty_none tornAfterBegin fuel beginOne [] rfl (by decide)

/-- C3 (code bug): each single dispatch of a cleanly logged transaction
matches the claim — begin creates the transaction and records it
uncommitted, commit redoes it and removes it — but on any cleanly
terminated non-empty log the scan itself never terminates: after the last
entry, next() returns RECORD_EOF without clearing the stored entry, the
loop condition valid() stays true, and the last entry is dispatched again
forever, so the rollback pass is never reached. -/
theorem c3_recover_loops :
    (recoverDispatch beginOne emptyRecSt = some stAfterBegin) ∧
    (recoverDispatch commitOne stAfterBegin = some stAfterCommit) ∧
    (∀ fuel, recover fuel cleanBeginCommit = none) := by
  refine ⟨by decide, by decide, ?_⟩
  intro fuel
  exact recover_nonempty_none cleanBeginCommit fuel beginOne [commitOne] rfl (by decide)

/-- C9 (code bug): recover returns SUCCESS on the empty log, but it does
not return SUCCESS for every log content: already on a clean log holding a
single begin entry the loop never exits, because a failing next() leaves
valid() true, so recover never returns at all. -/
theorem c9_recover_no_return :
    (recover 1 emptyLog = some (some (RC.SUCCESS, []))) ∧
    (∀ fuel, recover fuel cleanBeginOnly = none) := by
  constructor
  · rfl
  · intro fuel
    exact recover_nonempty_none cleanBeginOnly fuel beginOne [] rfl (by decide)

/-- C10: dispatching a commit whose transaction id was never begun
dereferences the null result of find_trx (modelled as the none outcome);
when every commit and default-branch entry of the log is preceded by the
begin of its transaction, no dispatch of recover ever dereferences a null
transaction, for any number of loop rounds. -/
theorem c10_find_trx_guard :
    (recoverDispatch commitFive emptyRecSt = none) ∧
    (∀ (fuel : Nat) (f : LogFileContent), chainOk [] f.entries = true →
      derefFree (recover fuel f) = true) := by
  constructor
  · rfl
  · intro fuel f hchain
    have hmain : recover fuel f = none ∨
        ∃ p, recover fuel f = some (some p) := by
      cases hent : f.entries with
      | nil =>
        cases fuel with
        | zero => exact Or.inl rfl
        | succ n =>
          right
          have hst : (IterState.start f).next.2 = IterState.start f :=
            next_empty (show (IterState.start f).remaining = [] from hent)
          exact ⟨(RC.SUCCESS, []), by simp only [recover, hst]; rfl⟩
      | cons e rest =>
        exact Or.inl (recover_nonempty_none f fuel e rest hent hchain)
    rcases hmain with h | ⟨p, h⟩ <;> simp [derefFree, h]

/-- C10 witness: a log of one complete transaction satisfies the chain
precondition and recovery never dereferences a null transaction on it. -/
theorem c10_find_trx_guard_witness :
    chainOk [] fullTrxLog.entries = true ∧
    derefFree (recover 5 fullTrxLog) = true := by
  constructor
  · decide
  · exact c10_find_trx_guard.2 5 fullTrxLog (by decide)
